import Mathlib

/-!
Verification of the jira-plugin-analyzer core logic.

This file gives a shallow embedding, in Lean 4, of the three pieces of the
repository that carry algorithmic content:

* `src/analyzer.py` — the keyword classifier (`ReleaseNotesAnalyzer`):
  keyword bucketing, the compatibility scan and the dotted-version comparator;
* `src/app.py`, `analyze_with_openai` — the wire-format-A structured-output
  parser (headers `Admin Changes:` / `User Changes:` / `Compatibility
  Warnings:`, bullet `•`);
* `src/app_ollama.py`, `analyze_with_ollama` — the wire-format-B parser
  (substring-dispatched sections, bullets `*` / `-`).

Python strings are modelled as `List Char` (with `String` wrappers at the
boundary), Python exceptions as `Option` (`none` = the call raised), and the
Python `for` loops as folds.  The helper functions `pySplit`, `pyStrip`,
`pyInt`, `listContains`, … model the corresponding Python primitives
(`str.split`, `str.strip`, `int`, the `in` operator, …) for the inputs this
program feeds them.
-/

/-! ### Python string primitives -/

/-- Python whitespace for `str.strip()` / regex `\s` (ASCII range). -/
def isPySpace (c : Char) : Bool :=
  c = ' ' || c = '\t' || c = '\n' || c = '\x0d' || c = '\x0b' || c = '\x0c'

/-- `str.lower()` (ASCII; the program's vocabulary is ASCII). -/
def lowerL (l : List Char) : List Char := l.map Char.toLower

/-- Strip characters satisfying `p` from both ends (Python `str.strip(chars)`). -/
def pyStripChars (p : Char → Bool) (l : List Char) : List Char :=
  ((l.dropWhile p).reverse.dropWhile p).reverse

/-- Python `str.strip()` with no argument. -/
def pyStrip (l : List Char) : List Char := pyStripChars isPySpace l

/-- Python `pat in s` substring test. -/
def listContains (pat : List Char) : List Char → Bool
  | [] => pat.isEmpty
  | c :: t => pat.isPrefixOf (c :: t) || listContains pat t

/-- First occurrence of `sep` in `s`: `some (before, after)`, scanning left to
right, as Python `str.split` does.  An empty `sep` never matches (Python
raises on it; the program never passes one). -/
def splitFirst (sep : List Char) : List Char → Option (List Char × List Char)
  | [] => none
  | c :: t =>
    if sep ≠ [] ∧ sep.isPrefixOf (c :: t) then some ([], (c :: t).drop sep.length)
    else match splitFirst sep t with
      | none => none
      | some (a, b) => some (c :: a, b)

/-- Fuelled worker for `pySplit`; a successful `splitFirst` consumes at least
one character, so fuel `s.length` always suffices. -/
def pySplitAux (sep : List Char) : Nat → List Char → List (List Char)
  | 0, s => [s]
  | fuel + 1, s =>
    match splitFirst sep s with
    | none => [s]
    | some (a, b) => a :: pySplitAux sep fuel b

/-- Python `s.split(sep)` for a non-empty separator. -/
def pySplit (sep s : List Char) : List (List Char) := pySplitAux sep s.length s

/-- Python `s.replace(old, "")` (all occurrences, left to right). -/
def pyRemoveAll (old s : List Char) : List Char := (pySplit old s).flatten

/-! ### Python `int` (base 10)

`int(x)` strips whitespace, accepts one optional sign, then digit groups
separated by single underscores.  `none` models `ValueError`. -/

def charVal (c : Char) : Nat := c.toNat - '0'.toNat

/-- Digits-and-underscores tail of an integer literal, accumulator style. -/
def pyIntGo : List Char → Nat → Option Nat
  | [], acc => some acc
  | c :: t, acc =>
    if c = '_' then
      match t with
      | c2 :: t2 => if c2.isDigit then pyIntGo t2 (acc * 10 + charVal c2) else none
      | [] => none
    else if c.isDigit then pyIntGo t (acc * 10 + charVal c) else none

/-- `digit+ ('_' digit+)*`, evaluated base 10. -/
def pyIntDigits : List Char → Option Nat
  | [] => none
  | c :: t => if c.isDigit then pyIntGo t (charVal c) else none

/-- Python `int(s)` for base 10; `none` models `ValueError`. -/
def pyInt (s : List Char) : Option Int :=
  match pyStrip s with
  | [] => none
  | c :: rest =>
    if c = '-' then (pyIntDigits rest).map (fun n => -(Int.ofNat n))
    else if c = '+' then (pyIntDigits rest).map (fun n => Int.ofNat n)
    else (pyIntDigits (c :: rest)).map (fun n => Int.ofNat n)

/-- Option-valued traversal: the Python `for` loop in which each iteration may
raise (first failure aborts the whole call). -/
def optMap? {α β : Type} (f : α → Option β) : List α → Option (List β)
  | [] => some []
  | a :: l =>
    match f a with
    | none => none
    | some b =>
      match optMap? f l with
      | none => none
      | some bs => some (b :: bs)

/-! ### `src/analyzer.py` — keyword classifier -/

/-- `self.admin_keywords` from `ReleaseNotesAnalyzer.__init__`. -/
def admin_keywords : List String :=
  ["admin", "configuration", "security", "performance", "database", "server",
   "installation", "upgrade", "migration", "compatibility", "permission",
   "access", "authentication", "authorization"]

/-- `self.user_keywords` from `ReleaseNotesAnalyzer.__init__`. -/
def user_keywords : List String :=
  ["feature", "improvement", "bug fix", "ui", "interface", "workflow",
   "user experience", "usability", "functionality", "new", "enhancement"]

/-- `self.compatibility_keywords` from `ReleaseNotesAnalyzer.__init__`
(assigned by the constructor but read nowhere in the class). -/
def compatibility_keywords : List String :=
  ["compatibility", "requires", "supported", "version", "jira",
   "breaking change", "deprecated", "removed", "upgrade", "migration"]

/-- `_is_admin_relevant`: `any(keyword.lower() in content.lower() ...)`. -/
def is_admin_relevant (content : String) : Bool :=
  admin_keywords.any (fun kw => listContains (lowerL kw.data) (lowerL content.data))

/-- `_is_user_relevant`. -/
def is_user_relevant (content : String) : Bool :=
  user_keywords.any (fun kw => listContains (lowerL kw.data) (lowerL content.data))

/-- Body of `parse_version` inside `_compare_versions`:
`[int(x) for x in v.split('.')]`; `none` models `ValueError`. -/
def parse_version (v : List Char) : Option (List Int) :=
  optMap? pyInt (pySplit ['.'] v)

/-- Tail of the comparison loop of `_compare_versions` once the left list is
exhausted (its missing components count as 0). -/
def cmpZeros : List Int → Int
  | [] => 0
  | y :: ys =>
    if (0 : Int) > y then 1 else if (0 : Int) < y then -1 else cmpZeros ys

/-- The comparison loop of `_compare_versions`: pad the shorter list with
zeros, first differing component decides, returning 1 / -1 / 0. -/
def cmpParts : List Int → List Int → Int
  | [], ys => cmpZeros ys
  | x :: xs, [] =>
    if x > 0 then 1 else if x < 0 then -1 else cmpParts xs []
  | x :: xs, y :: ys =>
    if x > y then 1 else if x < y then -1 else cmpParts xs ys

/-- `_compare_versions(v1, v2)`; `none` models a `ValueError` escaping it. -/
def compare_versions (v1 v2 : String) : Option Int :=
  match parse_version v1.data with
  | none => none
  | some p1 =>
    match parse_version v2.data with
    | none => none
    | some p2 => some (cmpParts p1 p2)

/-! `re.finditer(r"requires\s+Jira\s+(\d+\.\d+\.\d+)", content, re.IGNORECASE)`.
For this pattern the regex engine is deterministic (each greedy piece is
followed by a character it cannot itself match), so maximal munch at each
position is exact. -/

/-- Case-insensitive literal match, returning the rest of the input. -/
def ciStrip : List Char → List Char → Option (List Char)
  | [], s => some s
  | _ :: _, [] => none
  | p :: ps, c :: cs => if p.toLower = c.toLower then ciStrip ps cs else none

/-- Try the whole pattern `requires\s+Jira\s+(\d+\.\d+\.\d+)` at the head of
`s`; on success return (captured dotted version, rest after the match). -/
def matchRequiresAt (s : List Char) : Option (List Char × List Char) :=
  match ciStrip "requires".data s with
  | none => none
  | some s1 =>
    let w1 := s1.takeWhile isPySpace
    if w1.isEmpty then none else
    match ciStrip "jira".data (s1.drop w1.length) with
    | none => none
    | some s2 =>
      let w2 := s2.takeWhile isPySpace
      if w2.isEmpty then none else
      let s3 := s2.drop w2.length
      let d1 := s3.takeWhile Char.isDigit
      if d1.isEmpty then none else
      match s3.drop d1.length with
      | '.' :: s4 =>
        let d2 := s4.takeWhile Char.isDigit
        if d2.isEmpty then none else
        match s4.drop d2.length with
        | '.' :: s5 =>
          let d3 := s5.takeWhile Char.isDigit
          if d3.isEmpty then none else
          some (d1 ++ '.' :: d2 ++ '.' :: d3, s5.drop d3.length)
        | _ => none
      | _ => none

/-- Fuelled `finditer` scan: try each position left to right, continue after a
match's end.  A match consumes at least one character, so fuel `s.length`
suffices. -/
def scanRequiresAux : Nat → List Char → List (List Char)
  | 0, _ => []
  | _ + 1, [] => []
  | fuel + 1, c :: t =>
    match matchRequiresAt (c :: t) with
    | some (v, rest) => v :: scanRequiresAux fuel rest
    | none => scanRequiresAux fuel t

/-- All captured `(\d+\.\d+\.\d+)` groups of the `requires Jira` pattern in
`content`, in order of occurrence. -/
def scanRequires (s : List Char) : List (List Char) := scanRequiresAux s.length s

/-- The fixed breaking-change warning string from `_check_compatibility`. -/
def breakingWarning : String := "⚠️ Warning: Contains breaking changes"

/-- The fixed deprecation warning string from `_check_compatibility`. -/
def deprecatedWarning : String := "⚠️ Warning: Contains deprecated features"

/-- The minimum-version warning built for one `requires Jira x.y.z` match. -/
def mkMinVerWarning (v : List Char) : String :=
  "⚠️ Warning: This version requires Jira " ++ String.mk v ++ " or higher"

/-- `_check_compatibility(content, current, target)`; `none` models a
`ValueError` raised while comparing a required version against the target. -/
def check_compatibility (content current_jira_version target_jira_version : String) :
    Option (List String) :=
  match optMap?
      (fun v => (compare_versions (String.mk v) target_jira_version).map (fun c => (v, c)))
      (scanRequires content.data) with
  | none => none
  | some pairs =>
    let verWarnings := (pairs.filter (fun p => 0 < p.2)).map (fun p => mkMinVerWarning p.1)
    let bw := if listContains "breaking change".data (lowerL content.data)
              then [breakingWarning] else []
    let dw := if listContains "deprecated".data (lowerL content.data)
              then [deprecatedWarning] else []
    some (verWarnings ++ (bw ++ dw))

/-- Result record of `analyze_release_notes`. -/
structure AnalysisResult where
  admin_notes : String
  user_notes : String
  compatibility_warnings : String
  deriving DecidableEq

/-- The `f"**Version {version}:**\n{content}"` block for a matched note. -/
def renderNote (version content : String) : String :=
  "**Version " ++ version ++ ":**\n" ++ content

/-- `analyze_release_notes(release_notes, current, target)`; notes are
`(version, notes)` pairs; `none` models an exception from the compatibility
scan. -/
def analyze_release_notes (release_notes : List (String × String))
    (current_jira_version target_jira_version : String) : Option AnalysisResult :=
  match optMap?
      (fun n => (check_compatibility n.2 current_jira_version target_jira_version).map
        (fun ws => (n.1, n.2, ws)))
      release_notes with
  | none => none
  | some rows =>
    let compatibility_warnings := (rows.map (fun r => r.2.2)).flatten
    let admin_notes := rows.filterMap
      (fun r => if is_admin_relevant r.2.1 then some (renderNote r.1 r.2.1) else none)
    let user_notes := rows.filterMap
      (fun r => if is_user_relevant r.2.1 then some (renderNote r.1 r.2.1) else none)
    some ⟨(if admin_notes.isEmpty then "No admin-relevant changes found."
           else String.intercalate "\n\n" admin_notes),
          (if user_notes.isEmpty then "No user-relevant changes found."
           else String.intercalate "\n\n" user_notes),
          (if compatibility_warnings.isEmpty then ""
           else String.intercalate "\n\n" compatibility_warnings)⟩

/-! ### `src/app.py` — wire-format-A parser (`analyze_with_openai`)

The extraction of the version token uses
`re.search(r'Version[s]?\s+([\d\., ]+(?:through|and)\s+[\d\.]+|[\d\.]+)', content)`.
This one does backtrack (the first alternative of the group can fail after
the character class consumed greedily), so it is embedded as a hand-compiled
backtracking matcher: a matcher maps an input to the list of possible rests,
in the regex engine's priority order (greedy pieces longest first,
alternatives left first), and `re.search` takes the first position with a
non-empty result list and that list's first element. -/

/-- A compiled regex fragment: possible rests after a match, priority order. -/
def RegM : Type := List Char → List (List Char)

/-- Literal (case-sensitive). -/
def mLit (w : List Char) : RegM := fun s =>
  if w.isPrefixOf s then [s.drop w.length] else []

/-- Sequencing, preserving priority order. -/
def mSeq (a b : RegM) : RegM := fun s => (a s).flatMap b

/-- Alternation, left alternative first. -/
def mAlt (a b : RegM) : RegM := fun s => a s ++ b s

/-- Greedy `?`: with the piece first, without it second. -/
def mOpt (a : RegM) : RegM := fun s => a s ++ [s]

/-- Greedy `+` over a character class: longest take first, down to one. -/
def mMany1 (p : Char → Bool) : RegM := fun s =>
  let k := (s.takeWhile p).length
  (List.range k).map (fun i => s.drop (k - i))

/-- The part of the pattern before the capture group:
`Version[s]?\s+`. -/
def verPre : RegM :=
  mSeq (mLit "Version".data) (mSeq (mOpt (mLit "s".data)) (mMany1 isPySpace))

/-- The class `[\d\., ]`. -/
def isVerClsA (c : Char) : Bool := c.isDigit || c = '.' || c = ',' || c = ' '

/-- The class `[\d\.]`. -/
def isVerClsB (c : Char) : Bool := c.isDigit || c = '.'

/-- The capture group `([\d\., ]+(?:through|and)\s+[\d\.]+|[\d\.]+)`. -/
def verGroup : RegM :=
  mAlt
    (mSeq (mMany1 isVerClsA)
      (mSeq (mAlt (mLit "through".data) (mLit "and".data))
        (mSeq (mMany1 isPySpace) (mMany1 isVerClsB))))
    (mMany1 isVerClsB)

/-- Attempt the whole pattern anchored at `s`; on success return the text
captured by the group (the group is the final piece of the pattern, so its
capture is what sits between the group's start and the chosen rest). -/
def verMatchAt (s : List Char) : Option (List Char) :=
  (verPre s).findSome? (fun r1 =>
    match verGroup r1 with
    | r2 :: _ => some (r1.take (r1.length - r2.length))
    | [] => none)

/-- `re.search`: leftmost position with a match wins. -/
def verSearch : List Char → Option (List Char)
  | [] => none
  | c :: t =>
    match verMatchAt (c :: t) with
    | some v => some v
    | none => verSearch t

/-- One parsed change record (`importance` / `text` / `version` / `category`
dict built by both parsers). -/
structure ChangeItem where
  importance : String
  text : String
  version : String
  category : String
  deriving DecidableEq

/-- The `results` dict of both parsers.  Compatibility entries carry only
their `text`, so that bucket is a list of strings. -/
structure ParseResults where
  user : List ChangeItem
  admin : List ChangeItem
  compatibility : List String
  deriving DecidableEq

/-- Importance vocabulary of the wire-format-A parser. -/
def hazardKeywordsA : List String :=
  ["security", "vulnerability", "breaking", "compatibility", "critical"]

/-- Loop state of the wire-format-A parser: the accumulated buckets plus
`current_main_section` and `current_subsection`. -/
structure StateA where
  results : ParseResults
  mainSection : Option String
  subSection : Option (List Char)

/-- Processing of one line of a section in `analyze_with_openai`. -/
def stepALine (st : StateA) (rawLine : List Char) : StateA :=
  let line := pyStrip rawLine
  if line.isEmpty then st
  else if line = "Admin Changes:".data then
    { st with mainSection := some "admin", subSection := none }
  else if line = "User Changes:".data then
    { st with mainSection := some "user", subSection := none }
  else if line = "Compatibility Warnings:".data then
    { st with mainSection := some "compatibility", subSection := none }
  else if line.getLast? = some ':' then
    { st with subSection := some line.dropLast }
  else if line.head? = some '•' then
    let content := pyStrip (line.drop 2)
    let version := match verSearch content with
      | some v => String.mk v
      | none => "N/A"
    let importance :=
      if hazardKeywordsA.any (fun kw => listContains kw.data (lowerL content))
      then "major" else "minor"
    if st.mainSection = some "compatibility" then
      { st with results :=
          { st.results with
            compatibility := st.results.compatibility ++ [String.mk content] } }
    else
      let category := match st.subSection with
        | some s => if s.isEmpty then "General" else String.mk s
        | none => "General"
      let item : ChangeItem := ⟨importance, String.mk content, version, category⟩
      match st.mainSection with
      | some m =>
        if m = "admin" then
          { st with results := { st.results with admin := st.results.admin ++ [item] } }
        else if m = "user" then
          { st with results := { st.results with user := st.results.user ++ [item] } }
        else st
      | none => st
  else st

/-- Processing of one blank-line-separated block in `analyze_with_openai`
(the loop state persists across blocks). -/
def stepASection (st : StateA) (sec : List Char) : StateA :=
  if (pyStrip sec).isEmpty then st
  else (pySplit ['\n'] (pyStrip sec)).foldl stepALine st

/-- The wire-format-A parser: the parsing part of `analyze_with_openai`
applied to the model's response text. -/
def parseA (analysis_text : String) : ParseResults :=
  ((pySplit "\n\n".data analysis_text.data).foldl stepASection
    ⟨⟨[], [], []⟩, none, none⟩).results

/-! ### `src/app_ollama.py` — wire-format-B parser (`analyze_with_ollama`) -/

/-- `item.strip().startswith(('*', '-'))`. -/
def isBulletB (l : List Char) : Bool := l.head? = some '*' || l.head? = some '-'

/-- The character set of `item.strip('*- ')`. -/
def isStarDashSpace (c : Char) : Bool := c = '*' || c = '-' || c = ' '

/-- Importance vocabulary of the `New Features` branch. -/
def kwNewFeatures : List String :=
  ["breaking change", "deprecation", "security", "critical", "important"]

/-- Importance vocabulary of the `Bugs Fixed` branch. -/
def kwBugsFixed : List String := ["security", "critical", "important", "fix"]

/-- Importance vocabulary of the `Other Noteworthy Changes` branch. -/
def kwOther : List String := ["security", "critical", "important", "update"]

/-- The bullet-content lines of a block after the header text is removed:
`section.replace(header, '').strip().split('\n')` filtered to bullet lines,
each rendered as `item.strip('*- ').strip()`. -/
def bulletContentsB (header : List Char) (sec : List Char) : List (List Char) :=
  ((pySplit ['\n'] (pyStrip (pyRemoveAll header sec))).filter
    (fun item => isBulletB (pyStrip item))).map
    (fun item => pyStrip (pyStripChars isStarDashSpace item))

/-- Processing of one blank-line-separated block in `analyze_with_ollama`.
The state is `(results, current_section)`; `current_section` is assigned by
every recognized branch but read by none of them. -/
def stepB (st : ParseResults × Option String) (sec : List Char) :
    ParseResults × Option String :=
  if (pyStrip sec).isEmpty then st
  else if listContains "New Features".data sec then
    let add := (bulletContentsB "New Features:".data sec).filterMap
      (fun content =>
        if lowerL content ≠ "none specified in the provided release notes.".data then
          some (ChangeItem.mk
            (if kwNewFeatures.any (fun kw => listContains kw.data (lowerL content))
             then "major" else "minor")
            (String.mk content) "N/A" "New Features")
        else none)
    ({ st.1 with user := st.1.user ++ add }, some "user")
  else if listContains "Bugs Fixed".data sec then
    let add := (bulletContentsB "Bugs Fixed:".data sec).map
      (fun content => ChangeItem.mk
        (if kwBugsFixed.any (fun kw => listContains kw.data (lowerL content))
         then "major" else "minor")
        (String.mk content) "N/A" "Bug Fixes")
    ({ st.1 with user := st.1.user ++ add }, some "user")
  else if listContains "Breaking Changes".data sec then
    let add := (bulletContentsB "Breaking Changes:".data sec).map
      (fun content => ChangeItem.mk "major" (String.mk content) "N/A" "Breaking Changes")
    ({ st.1 with admin := st.1.admin ++ add }, some "admin")
  else if listContains "Compatibility Issues".data sec then
    let add := (bulletContentsB "Compatibility Issues:".data sec).map String.mk
    ({ st.1 with compatibility := st.1.compatibility ++ add }, some "compatibility")
  else if listContains "Other Noteworthy Changes".data sec then
    let add := (bulletContentsB "Other Noteworthy Changes:".data sec).map
      (fun content => ChangeItem.mk
        (if kwOther.any (fun kw => listContains kw.data (lowerL content))
         then "major" else "minor")
        (String.mk content) "N/A" "Other Changes")
    ({ st.1 with admin := st.1.admin ++ add }, some "admin")
  else st

/-- The wire-format-B parser: the parsing part of `analyze_with_ollama`
applied to the model's response text. -/
def parseB (analysis_text : String) : ParseResults :=
  ((pySplit "\n\n".data analysis_text.data).foldl stepB (⟨[], [], []⟩, none)).1

/-! ### Spec-side definitions

These definitions follow the wording of the specification (not the code);
they exist to be compared against the embedded source functions. -/

/-- Numeric value of a digit string. -/
def natOfDigits (l : List Char) : Nat :=
  l.foldl (fun a c => a * 10 + charVal c) 0

/-- A well-formed dotted version: every dot-separated component is a
non-empty string of decimal digits. -/
def wf_dotted (v : String) : Bool :=
  (pySplit ['.'] v.data).all (fun comp => !comp.isEmpty && comp.all Char.isDigit)

/-- Lexicographic comparison of two equal-length component lists,
returning 1 / -1 / 0. -/
def lexCmp : List Int → List Int → Int
  | x :: xs, y :: ys =>
    if x > y then 1 else if x < y then -1 else lexCmp xs ys
  | _, _ => 0

/-- Modelled from the spec: "Version comparison is strictly numeric,
dot-separated, left-to-right, missing trailing components treated as zero";
both component lists are padded with zeros to a common length and compared
left to right. -/
def specCompareVersions (v1 v2 : String) : Int :=
  let a := (pySplit ['.'] v1.data).map (fun comp => (natOfDigits comp : Int))
  let b := (pySplit ['.'] v2.data).map (fun comp => (natOfDigits comp : Int))
  let n := max a.length b.length
  lexCmp (a ++ List.replicate (n - a.length) 0) (b ++ List.replicate (n - b.length) 0)

/-- Modelled from the spec (claim C6): the admin vocabulary as the spec lists
it — "configuration, security, performance, database, server, installation,
upgrade, migration, compatibility, permissions, authentication,
authorization". -/
def specClaimedAdminVocab : List String :=
  ["configuration", "security", "performance", "database", "server",
   "installation", "upgrade", "migration", "compatibility", "permissions",
   "authentication", "authorization"]

/-- Modelled from the spec (claim C6): the user-facing vocabulary terms the
spec lists explicitly ("feature, improvement, bug fix, UI, workflow,
usability, enhancement, etc."). -/
def specClaimedUserVocab : List String :=
  ["feature", "improvement", "bug fix", "ui", "workflow", "usability",
   "enhancement"]

/-- Recognition of warnings of the minimum-version kind among the strings
produced by `check_compatibility`. -/
def isMinVerWarning (s : String) : Bool :=
  "⚠️ Warning: This version requires".data.isPrefixOf s.data

/-- The three main-section header strings of wire format A. -/
def isMainHeaderA (line : List Char) : Bool :=
  line = "Admin Changes:".data || line = "User Changes:".data ||
  line = "Compatibility Warnings:".data

/-- No stripped line of the input text is a main-section header of wire
format A (computed through the same block/line decomposition the parser
performs). -/
def noMainHeaderA (text : String) : Bool :=
  (pySplit "\n\n".data text.data).all (fun sec =>
    (pySplit ['\n'] (pyStrip sec)).all (fun l => !isMainHeaderA (pyStrip l)))

/-- A block contains one of the five section phrases of wire format B. -/
def hasSectionPhraseB (sec : List Char) : Bool :=
  listContains "New Features".data sec || listContains "Bugs Fixed".data sec ||
  listContains "Breaking Changes".data sec ||
  listContains "Compatibility Issues".data sec ||
  listContains "Other Noteworthy Changes".data sec

/-- No block of the input text contains any of the five section phrases of
wire format B. -/
def noSectionPhraseB (text : String) : Bool :=
  (pySplit "\n\n".data text.data).all (fun sec => !hasSectionPhraseB sec)

/-- Characters that can appear in a string accepted by Python `int` (digits,
sign, whitespace, group underscore); anything else is necessarily rejected. -/
def isIntOkChar (c : Char) : Bool :=
  c.isDigit || c = '-' || c = '+' || isPySpace c || c = '_'

/-- The claim C9 hypothesis: some dot-separated component of `v` contains a
character that no integer literal may contain. -/
def hasNonNumericComponent (v : String) : Bool :=
  (pySplit ['.'] v.data).any (fun comp => comp.any (fun c => !isIntOkChar c))

/-! ## Theorems

First a small theory of the comparison loop `cmpParts`, of Python `int` on
digit strings, and of the option-valued traversal; then the claims. -/

theorem optMap?_eq_none_of_mem {α β : Type} {f : α → Option β} {l : List α} {a : α}
    (ha : a ∈ l) (hf : f a = none) : optMap? f l = none := by
  induction l with
  | nil => cases ha
  | cons x xs ih =>
    rcases List.mem_cons.mp ha with rfl | hmem
    · simp [optMap?, hf]
    · simp only [optMap?]
      cases f x with
      | none => rfl
      | some b => rw [ih hmem]

theorem optMap?_eq_map {α β : Type} {f : α → Option β} {g : α → β} {l : List α}
    (h : ∀ a ∈ l, f a = some (g a)) : optMap? f l = some (l.map g) := by
  induction l with
  | nil => rfl
  | cons x xs ih =>
    simp only [optMap?, h x (List.mem_cons_self x xs), List.map_cons]
    rw [ih (fun a ha => h a (List.mem_cons_of_mem x ha))]

theorem cmpZeros_range (l : List Int) : cmpZeros l = -1 ∨ cmpZeros l = 0 ∨ cmpZeros l = 1 := by
  induction l with
  | nil => simp [cmpZeros]
  | cons y ys ih =>
    simp only [cmpZeros]
    split_ifs <;> simp [ih]

theorem cmpParts_range (a : List Int) : ∀ b, cmpParts a b = -1 ∨ cmpParts a b = 0 ∨ cmpParts a b = 1 := by
  induction a with
  | nil => intro b; simpa [cmpParts] using cmpZeros_range b
  | cons x xs ih =>
    intro b
    cases b with
    | nil =>
      simp only [cmpParts]
      split_ifs <;> simp [ih []]
    | cons y ys =>
      simp only [cmpParts]
      split_ifs <;> simp [ih ys]

theorem cmpParts_self (a : List Int) : cmpParts a a = 0 := by
  induction a with
  | nil => rfl
  | cons x xs ih =>
    simp only [cmpParts]
    split_ifs with h
    · omega
    · exact ih

theorem cmpParts_nil_right (b : List Int) : cmpParts b [] = -cmpZeros b := by
  induction b with
  | nil => rfl
  | cons y ys ih =>
    simp only [cmpParts, cmpZeros]
    split_ifs <;> omega

theorem cmpParts_swap (a : List Int) : ∀ b, cmpParts b a = -cmpParts a b := by
  induction a with
  | nil =>
    intro b
    simpa [cmpParts] using cmpParts_nil_right b
  | cons x xs ih =>
    intro b
    cases b with
    | nil =>
      have h := cmpParts_nil_right (x :: xs)
      show cmpZeros (x :: xs) = -cmpParts (x :: xs) []
      omega
    | cons y ys =>
      have h := ih ys
      simp only [cmpParts]
      split_ifs <;> omega

theorem cmpParts_replicate_zero_left (k : Nat) : ∀ b, cmpParts (List.replicate k 0) b = cmpZeros b := by
  induction k with
  | zero => intro b; rfl
  | succ n ih =>
    intro b
    cases b with
    | nil =>
      rw [List.replicate_succ]
      have h := ih []
      simp only [cmpParts] at h ⊢
      split_ifs <;> omega
    | cons y ys =>
      rw [List.replicate_succ]
      have h := ih ys
      simp only [cmpParts, cmpZeros]
      split_ifs <;> omega

theorem cmpParts_append_zeros_left (a : List Int) (k : Nat) :
    ∀ b, cmpParts (a ++ List.replicate k 0) b = cmpParts a b := by
  induction a with
  | nil =>
    intro b
    simpa [cmpParts] using cmpParts_replicate_zero_left k b
  | cons x xs ih =>
    intro b
    cases b with
    | nil => simp only [List.cons_append, cmpParts]; split_ifs <;> simp [ih []]
    | cons y ys => simp only [List.cons_append, cmpParts]; split_ifs <;> simp [ih ys]

theorem cmpParts_append_zeros_right (a b : List Int) (k : Nat) :
    cmpParts a (b ++ List.replicate k 0) = cmpParts a b := by
  have h1 := cmpParts_swap (b ++ List.replicate k 0) a
  have h2 := cmpParts_append_zeros_left b k a
  have h3 := cmpParts_swap b a
  omega

theorem cmpParts_trans_eqlen (a : List Int) :
    ∀ b c : List Int, a.length = b.length → b.length = c.length →
      cmpParts a b = 1 → cmpParts b c = 1 → cmpParts a c = 1 := by
  induction a with
  | nil =>
    intro b c hab hbc h1 _
    cases b with
    | nil => simp [cmpParts, cmpZeros] at h1
    | cons y ys => simp at hab
  | cons x xs ih =>
    intro b c hab hbc h1 h2
    cases b with
    | nil => simp at hab
    | cons y ys =>
      cases c with
      | nil => simp at hbc
      | cons z zs =>
        simp only [List.length_cons, Nat.succ.injEq] at hab hbc
        simp only [cmpParts] at h1 h2 ⊢
        split_ifs at h1 h2 ⊢ <;> try omega
        all_goals exact ih ys zs hab hbc h1 h2

theorem cmpParts_trans {a b c : List Int} (h1 : cmpParts a b = 1) (h2 : cmpParts b c = 1) :
    cmpParts a c = 1 := by
  set n := max a.length (max b.length c.length) with hn
  have ha : a.length ≤ n := le_max_left _ _
  have hb : b.length ≤ n := le_trans (le_max_left _ _) (le_max_right _ _)
  have hc : c.length ≤ n := le_trans (le_max_right _ _) (le_max_right _ _)
  have pa : (a ++ List.replicate (n - a.length) 0).length = n := by
    simp [List.length_append, List.length_replicate]; omega
  have pb : (b ++ List.replicate (n - b.length) 0).length = n := by
    simp [List.length_append, List.length_replicate]; omega
  have pc : (c ++ List.replicate (n - c.length) 0).length = n := by
    simp [List.length_append, List.length_replicate]; omega
  have e1 : cmpParts (a ++ List.replicate (n - a.length) 0) (b ++ List.replicate (n - b.length) 0) = 1 := by
    rw [cmpParts_append_zeros_left, cmpParts_append_zeros_right]; exact h1
  have e2 : cmpParts (b ++ List.replicate (n - b.length) 0) (c ++ List.replicate (n - c.length) 0) = 1 := by
    rw [cmpParts_append_zeros_left, cmpParts_append_zeros_right]; exact h2
  have e3 := cmpParts_trans_eqlen _ _ _ (pa.trans pb.symm) (pb.trans pc.symm) e1 e2
  rw [cmpParts_append_zeros_left, cmpParts_append_zeros_right] at e3
  exact e3

theorem cmpParts_eq_lexCmp_eqlen (a : List Int) :
    ∀ b : List Int, a.length = b.length → cmpParts a b = lexCmp a b := by
  induction a with
  | nil =>
    intro b hab
    cases b with
    | nil => rfl
    | cons y ys => simp at hab
  | cons x xs ih =>
    intro b hab
    cases b with
    | nil => simp at hab
    | cons y ys =>
      simp only [List.length_cons, Nat.succ.injEq] at hab
      simp only [cmpParts, lexCmp]
      split_ifs <;> simp [ih ys hab]

theorem digit_not_pyspace {c : Char} (h : c.isDigit = true) : isPySpace c = false := by
  cases h2 : isPySpace c with
  | false => rfl
  | true =>
    exfalso
    simp only [isPySpace, Bool.or_eq_true, decide_eq_true_eq] at h2
    rcases h2 with ((((h1 | h1) | h1) | h1) | h1) | h1 <;> subst h1 <;>
      exact absurd h (by decide)

theorem dropWhile_eq_self_of {p : Char → Bool} {l : List Char}
    (h : ∀ c ∈ l, p c = false) : l.dropWhile p = l := by
  cases l with
  | nil => rfl
  | cons a t =>
    have := h a (List.mem_cons_self a t)
    simp [List.dropWhile, this]

theorem pyStripChars_of_all {p : Char → Bool} {l : List Char}
    (h : ∀ c ∈ l, p c = false) : pyStripChars p l = l := by
  unfold pyStripChars
  rw [dropWhile_eq_self_of h, dropWhile_eq_self_of, List.reverse_reverse]
  intro c hc
  exact h c (List.mem_reverse.mp hc)

theorem mem_dropWhile_of {p : Char → Bool} {l : List Char} {a : Char}
    (h : a ∈ l) (hp : p a = false) : a ∈ l.dropWhile p := by
  induction l with
  | nil => cases h
  | cons x t ih =>
    rcases List.mem_cons.mp h with rfl | hmem
    · simp [List.dropWhile, hp]
    · rw [List.dropWhile]
      cases hx : p x with
      | true => exact ih hmem
      | false => exact List.mem_cons_of_mem x hmem

theorem mem_pyStripChars {p : Char → Bool} {l : List Char} {a : Char}
    (h : a ∈ l) (hp : p a = false) : a ∈ pyStripChars p l := by
  unfold pyStripChars
  rw [List.mem_reverse]
  exact mem_dropWhile_of (List.mem_reverse.mpr (mem_dropWhile_of h hp)) hp

theorem pyIntGo_some_mem :
    ∀ (l : List Char) (acc n : Nat), pyIntGo l acc = some n →
      ∀ c ∈ l, (c.isDigit || c = '_') = true := by
  have key : ∀ (k : Nat) (l : List Char), l.length ≤ k → ∀ (acc n : Nat),
      pyIntGo l acc = some n → ∀ c ∈ l, (c.isDigit || c = '_') = true := by
    intro k
    induction k with
    | zero =>
      intro l hl acc n _ c hc
      rw [List.length_eq_zero.mp (Nat.le_zero.mp hl)] at hc
      cases hc
    | succ m ih =>
      intro l hl acc n hgo c hc
      cases l with
      | nil => cases hc
      | cons x t =>
        rw [pyIntGo.eq_def] at hgo
        dsimp only at hgo
        by_cases hx : x = '_'
        · rw [if_pos hx] at hgo
          cases t with
          | nil => dsimp only at hgo; cases hgo
          | cons c2 t2 =>
            dsimp only at hgo
            by_cases hd2 : c2.isDigit = true
            · rw [if_pos hd2] at hgo
              rcases List.mem_cons.mp hc with h | h
              · subst h; simp [hx]
              · rcases List.mem_cons.mp h with h2 | h2
                · subst h2; simp [hd2]
                · refine ih t2 ?_ _ _ hgo c h2
                  simp only [List.length_cons] at hl
                  omega
            · rw [if_neg hd2] at hgo; cases hgo
        · rw [if_neg hx] at hgo
          by_cases hd : x.isDigit = true
          · rw [if_pos hd] at hgo
            rcases List.mem_cons.mp hc with h | h
            · subst h; simp [hd]
            · refine ih t ?_ _ _ hgo c h
              simp only [List.length_cons] at hl
              omega
          · rw [if_neg hd] at hgo; cases hgo
  intro l acc n hgo c hc
  exact key l.length l (le_refl _) acc n hgo c hc

theorem pyIntDigits_some_mem {l : List Char} {n : Nat} (h : pyIntDigits l = some n) :
    ∀ c ∈ l, (c.isDigit || c = '_') = true := by
  cases l with
  | nil => cases h
  | cons x t =>
    rw [pyIntDigits.eq_def] at h
    dsimp only at h
    split_ifs at h with hx
    · intro c hc
      rcases List.mem_cons.mp hc with rfl | hc2
      · simp [hx]
      · exact pyIntGo_some_mem t _ _ h c hc2

theorem pyIntDigits_eq_none {l : List Char} {a : Char}
    (ha : a ∈ l) (hd : a.isDigit = false) (hu : a ≠ '_') : pyIntDigits l = none := by
  cases h : pyIntDigits l with
  | none => rfl
  | some n =>
    have := pyIntDigits_some_mem h a ha
    simp [hd, hu] at this

theorem pyInt_eq_none {s : List Char} {a : Char}
    (ha : a ∈ s) (hbad : isIntOkChar a = false) : pyInt s = none := by
  simp only [isIntOkChar, Bool.or_eq_false_iff, decide_eq_false_iff_not] at hbad
  obtain ⟨⟨⟨⟨hd, hminus⟩, hplus⟩, hws⟩, hu⟩ := hbad
  have hmem : a ∈ pyStrip s := mem_pyStripChars ha hws
  unfold pyInt
  cases ht : pyStrip s with
  | nil => rfl
  | cons c rest =>
    rw [ht] at hmem
    dsimp only
    split_ifs with hc1 hc2
    · have harest : a ∈ rest := by
        rcases List.mem_cons.mp hmem with rfl | h2
        · exact absurd hc1 hminus
        · exact h2
      rw [pyIntDigits_eq_none harest hd hu]
      rfl
    · have harest : a ∈ rest := by
        rcases List.mem_cons.mp hmem with rfl | h2
        · exact absurd hc2 hplus
        · exact h2
      rw [pyIntDigits_eq_none harest hd hu]
      rfl
    · rw [pyIntDigits_eq_none hmem hd hu]
      rfl

theorem pyIntGo_digits {l : List Char} (h : ∀ c ∈ l, c.isDigit = true) :
    ∀ acc, pyIntGo l acc = some (l.foldl (fun a c => a * 10 + charVal c) acc) := by
  induction l with
  | nil => intro acc; rfl
  | cons c t ih =>
    intro acc
    have hd : c.isDigit = true := h c (List.mem_cons_self c t)
    have hne : ¬(c = '_') := by
      intro he
      rw [he] at hd
      exact absurd hd (by decide)
    rw [pyIntGo.eq_def]
    dsimp only
    rw [if_neg hne, if_pos hd, List.foldl_cons]
    exact ih (fun x hx => h x (List.mem_cons_of_mem c hx)) _

theorem pyInt_digits {l : List Char} (hne : l ≠ []) (h : ∀ c ∈ l, c.isDigit = true) :
    pyInt l = some ((natOfDigits l : Int)) := by
  have hstrip : pyStrip l = l := by
    apply pyStripChars_of_all
    intro c hc
    exact digit_not_pyspace (h c hc)
  unfold pyInt
  rw [hstrip]
  cases l with
  | nil => exact absurd rfl hne
  | cons c rest =>
    have hd : c.isDigit = true := h c (List.mem_cons_self c rest)
    have hm : ¬(c = '-') := by intro he; rw [he] at hd; exact absurd hd (by decide)
    have hp : ¬(c = '+') := by intro he; rw [he] at hd; exact absurd hd (by decide)
    dsimp only
    rw [if_neg hm, if_neg hp]
    rw [pyIntDigits.eq_def]
    dsimp only
    rw [if_pos hd]
    rw [pyIntGo_digits (fun x hx => h x (List.mem_cons_of_mem c hx))]
    simp [natOfDigits, charVal]

theorem parse_version_wf {v : String} (h : wf_dotted v = true) :
    parse_version v.data =
      some ((pySplit ['.'] v.data).map (fun comp => (natOfDigits comp : Int))) := by
  apply optMap?_eq_map
  intro comp hcomp
  have hc := (List.all_eq_true.mp h) comp hcomp
  simp only [Bool.and_eq_true, Bool.not_eq_true'] at hc
  obtain ⟨h1, h2⟩ := hc
  have hcne : comp ≠ [] := by
    intro he
    subst he
    simp at h1
  exact pyInt_digits hcne (fun c hcc => (List.all_eq_true.mp h2) c hcc)

theorem compare_versions_mem_range {v1 v2 : String} {c : Int}
    (h : compare_versions v1 v2 = some c) : c = -1 ∨ c = 0 ∨ c = 1 := by
  unfold compare_versions at h
  cases h1 : parse_version v1.data with
  | none => rw [h1] at h; cases h
  | some p1 =>
    cases h2 : parse_version v2.data with
    | none => rw [h1, h2] at h; cases h
    | some p2 =>
      rw [h1, h2] at h
      dsimp only at h
      injection h with h'
      subst h'
      exact cmpParts_range p1 p2

/-- C2: on well-formed dotted decimal versions `_compare_versions` always
succeeds, returns only -1/0/+1, agrees with the spec's padded left-to-right
componentwise comparison, and the resulting ordering is total (reflexive-zero,
antisymmetric, transitive); the spec's three concrete examples hold. -/
theorem C2_version_comparator_total_order (v1 v2 v3 : String)
    (h1 : wf_dotted v1 = true) (h2 : wf_dotted v2 = true) (h3 : wf_dotted v3 = true) :
    (∃ c, compare_versions v1 v2 = some c ∧ (c = -1 ∨ c = 0 ∨ c = 1) ∧
      c = specCompareVersions v1 v2 ∧ compare_versions v2 v1 = some (-c)) ∧
    compare_versions v1 v1 = some 0 ∧
    (compare_versions v1 v2 = some 1 → compare_versions v2 v3 = some 1 →
      compare_versions v1 v3 = some 1) ∧
    compare_versions "9.10.0" "9.9.9" = some 1 ∧
    compare_versions "9.4" "9.4.0" = some 0 ∧
    compare_versions "1.2" "1.2.1" = some (-1) := by
  have pa := parse_version_wf h1
  have pb := parse_version_wf h2
  have pc := parse_version_wf h3
  set A := (pySplit ['.'] v1.data).map (fun comp => (natOfDigits comp : Int)) with hA
  set B := (pySplit ['.'] v2.data).map (fun comp => (natOfDigits comp : Int)) with hB
  set C := (pySplit ['.'] v3.data).map (fun comp => (natOfDigits comp : Int)) with hC
  have e12 : compare_versions v1 v2 = some (cmpParts A B) := by
    unfold compare_versions; rw [pa, pb]
  have e21 : compare_versions v2 v1 = some (cmpParts B A) := by
    unfold compare_versions; rw [pa, pb]
  have e11 : compare_versions v1 v1 = some (cmpParts A A) := by
    unfold compare_versions; rw [pa]
  have e23 : compare_versions v2 v3 = some (cmpParts B C) := by
    unfold compare_versions; rw [pb, pc]
  have e13 : compare_versions v1 v3 = some (cmpParts A C) := by
    unfold compare_versions; rw [pa, pc]
  refine ⟨⟨cmpParts A B, e12, cmpParts_range A B, ?_, ?_⟩, ?_, ?_, by decide, by decide, by decide⟩
  · show cmpParts A B = specCompareVersions v1 v2
    unfold specCompareVersions
    rw [← hA, ← hB]
    rw [← cmpParts_eq_lexCmp_eqlen, cmpParts_append_zeros_left, cmpParts_append_zeros_right]
    simp only [List.length_append, List.length_replicate]
    omega
  · rw [e21, cmpParts_swap]
  · rw [e11, cmpParts_self]
  · intro hx hy
    rw [e12] at hx
    rw [e23] at hy
    rw [e13]
    injection hx with hx'
    injection hy with hy'
    exact congrArg some (cmpParts_trans hx' hy')

/-- Witness for C2 at concrete well-formed versions. -/
theorem C2_witness : wf_dotted "2.10" = true ∧ compare_versions "2.10" "2.10" = some 0 :=
  ⟨by decide,
   (C2_version_comparator_total_order "2.10" "2.9.1" "1.0"
     (by decide) (by decide) (by decide)).2.1⟩

/-- C9: if either argument of `_compare_versions` has a dot-separated
component containing a character no integer literal may contain, the
comparison fails (a `ValueError` from `int`, modelled as `none`) rather than
returning any comparison result. -/
theorem C9_malformed_version_comparison_fails (v1 v2 : String)
    (h : hasNonNumericComponent v1 = true ∨ hasNonNumericComponent v2 = true) :
    compare_versions v1 v2 = none := by
  have key : ∀ v : String, hasNonNumericComponent v = true → parse_version v.data = none := by
    intro v hv
    simp only [hasNonNumericComponent, List.any_eq_true] at hv
    obtain ⟨comp, hcomp, c, hc, hbad⟩ := hv
    exact optMap?_eq_none_of_mem hcomp (pyInt_eq_none hc (by simpa using hbad))
  unfold compare_versions
  rcases h with hv | hv
  · rw [key v1 hv]
  · rw [key v2 hv]
    cases parse_version v1.data <;> rfl

/-- Witness for C9: `"9.x.0"` has a non-numeric component and comparing it
raises. -/
theorem C9_witness :
    (hasNonNumericComponent "9.x.0" = true ∨ hasNonNumericComponent "1.0.0" = true) ∧
    compare_versions "9.x.0" "1.0.0" = none :=
  ⟨Or.inl (by decide),
   C9_malformed_version_comparison_fails "9.x.0" "1.0.0" (Or.inl (by decide))⟩

theorem isMinVer_mkMinVerWarning (v : List Char) :
    isMinVerWarning (mkMinVerWarning v) = true := by
  unfold isMinVerWarning mkMinVerWarning
  rw [String.data_append, String.data_append]
  rw [ List.isPrefixOf_iff_prefix]
  have hsplit : "⚠️ Warning: This version requires Jira ".data =
      "⚠️ Warning: This version requires".data ++ " Jira ".data := by decide
  rw [hsplit, List.append_assoc]
  exact List.prefix_append _ _

theorem mkMinVerWarning_ne_breaking (v : List Char) :
    mkMinVerWarning v ≠ breakingWarning := by
  intro he
  have h1 := isMinVer_mkMinVerWarning v
  rw [he] at h1
  exact absurd h1 (by decide)

theorem mkMinVerWarning_ne_deprecated (v : List Char) :
    mkMinVerWarning v ≠ deprecatedWarning := by
  intro he
  have h1 := isMinVer_mkMinVerWarning v
  rw [he] at h1
  exact absurd h1 (by decide)

theorem countP_pairs_eq (target : String) :
    ∀ (vs : List (List Char)) (pairs : List (List Char × Int)),
      optMap? (fun v => (compare_versions (String.mk v) target).map (fun c => (v, c))) vs =
        some pairs →
      pairs.countP (fun p => decide (0 < p.2)) =
        vs.countP (fun v => decide (compare_versions (String.mk v) target = some 1)) := by
  intro vs
  induction vs with
  | nil =>
    intro pairs h
    injection h with h'
    subst h'
    rfl
  | cons v rest ih =>
    intro pairs h
    simp only [optMap?] at h
    cases hv : compare_versions (String.mk v) target with
    | none => rw [hv] at h; cases h
    | some c =>
      rw [hv] at h
      cases hrest : optMap?
          (fun v => (compare_versions (String.mk v) target).map (fun c => (v, c))) rest with
      | none =>
        rw [hrest] at h
        dsimp only [Option.map] at h
        cases h
      | some bs =>
        rw [hrest] at h
        dsimp only [Option.map] at h
        injection h with h'
        subst h'
        rw [List.countP_cons, List.countP_cons, ih bs hrest]
        have hr := compare_versions_mem_range hv
        by_cases h0 : (0 : Int) < c
        · have hc1 : c = 1 := by omega
          subst hc1
          simp [hv]
        · have hc1 : ¬(compare_versions (String.mk v) target = some 1) := by
            rw [hv]
            intro hs
            injection hs with hs'
            omega
          simp [h0, hc1]

/-- C1: among the warnings `_check_compatibility` emits for a note, the
minimum-version warnings are exactly one per `requires Jira x.y.z` match whose
required version compares strictly greater than the target; in particular the
note "requires Jira 10.0.0" yields exactly one such warning against target
"9.4.0" and none against "10.5.0", case-insensitively. -/
theorem C1_min_version_warning_iff_exceeds_target
    (content current target : String) (ws : List String)
    (h : check_compatibility content current target = some ws) :
    ws.countP (fun s => isMinVerWarning s) =
      (scanRequires content.data).countP
        (fun v => decide (compare_versions (String.mk v) target = some 1)) ∧
    check_compatibility "requires Jira 10.0.0" "9.0.0" "9.4.0" =
      some ["⚠️ Warning: This version requires Jira 10.0.0 or higher"] ∧
    check_compatibility "requires Jira 10.0.0" "9.0.0" "10.5.0" = some [] ∧
    check_compatibility "REQUIRES jira 10.0.0" "9.0.0" "9.4.0" =
      some ["⚠️ Warning: This version requires Jira 10.0.0 or higher"] := by
  refine ⟨?_, by decide, by decide, by decide⟩
  unfold check_compatibility at h
  cases hm : optMap?
      (fun v => (compare_versions (String.mk v) target).map (fun c => (v, c)))
      (scanRequires content.data) with
  | none => rw [hm] at h; cases h
  | some pairs =>
    rw [hm] at h
    dsimp only at h
    injection h with h'
    subst h'
    rw [List.countP_append, List.countP_append]
    have hmap : List.countP (fun s => isMinVerWarning s)
        ((pairs.filter (fun p => decide (0 < p.2))).map (fun p => mkMinVerWarning p.1)) =
        (pairs.filter (fun p => decide (0 < p.2))).length := by
      have hall : List.countP (fun s => isMinVerWarning s)
          ((pairs.filter (fun p => decide (0 < p.2))).map (fun p => mkMinVerWarning p.1)) =
          ((pairs.filter (fun p => decide (0 < p.2))).map (fun p => mkMinVerWarning p.1)).length := by
        rw [List.countP_eq_length]
        intro a ha
        obtain ⟨p, _, rfl⟩ := List.mem_map.mp ha
        exact isMinVer_mkMinVerWarning p.1
      rw [hall, List.length_map]
    have hbw : List.countP (fun s => isMinVerWarning s)
        (if listContains "breaking change".data (lowerL content.data) then [breakingWarning]
         else []) = 0 := by
      split_ifs <;> simp [List.countP_cons]
      decide
    have hdw : List.countP (fun s => isMinVerWarning s)
        (if listContains "deprecated".data (lowerL content.data) then [deprecatedWarning]
         else []) = 0 := by
      split_ifs <;> simp [List.countP_cons]
      decide
    rw [hmap, hbw, hdw]
    have hlen : (pairs.filter (fun p => decide (0 < p.2))).length =
        pairs.countP (fun p => decide (0 < p.2)) :=
      (List.countP_eq_length_filter _ _).symm
    rw [hlen, countP_pairs_eq target _ pairs hm]
    omega

/-- Witness for C1: the concrete example note, with the countP equation
instantiated at it. -/
theorem C1_witness :
    check_compatibility "requires Jira 10.0.0" "9.0.0" "9.4.0" =
      some ["⚠️ Warning: This version requires Jira 10.0.0 or higher"] ∧
    (["⚠️ Warning: This version requires Jira 10.0.0 or higher"] :
        List String).countP (fun s => isMinVerWarning s) =
      (scanRequires "requires Jira 10.0.0".data).countP
        (fun v => decide (compare_versions (String.mk v) "9.4.0" = some 1)) :=
  ⟨by decide,
   (C1_min_version_warning_iff_exceeds_target "requires Jira 10.0.0" "9.0.0" "9.4.0"
     ["⚠️ Warning: This version requires Jira 10.0.0 or higher"] (by decide)).1⟩

/-- C5: per note, the fixed breaking-change warning appears exactly once iff
"breaking change" occurs (case-insensitively) in the note, likewise the
deprecation warning for "deprecated"; a note containing both (even with
repeated occurrences) yields exactly those two warnings. -/
theorem C5_breaking_and_deprecated_once_per_note
    (content current target : String) (ws : List String)
    (h : check_compatibility content current target = some ws) :
    ws.count breakingWarning =
      (if listContains "breaking change".data (lowerL content.data) then 1 else 0) ∧
    ws.count deprecatedWarning =
      (if listContains "deprecated".data (lowerL content.data) then 1 else 0) ∧
    check_compatibility
      "One breaking change, another breaking change, and deprecated stuff"
      "9.0.0" "10.0.0" = some [breakingWarning, deprecatedWarning] := by
  refine ⟨?_, ?_, by decide⟩ <;>
  · unfold check_compatibility at h
    cases hm : optMap?
        (fun v => (compare_versions (String.mk v) target).map (fun c => (v, c)))
        (scanRequires content.data) with
    | none => rw [hm] at h; cases h
    | some pairs =>
      rw [hm] at h
      dsimp only at h
      injection h with h'
      subst h'
      rw [List.count_append, List.count_append]
      have hver : ((pairs.filter (fun p => decide (0 < p.2))).map
          (fun p => mkMinVerWarning p.1)).count breakingWarning = 0 ∧
          ((pairs.filter (fun p => decide (0 < p.2))).map
          (fun p => mkMinVerWarning p.1)).count deprecatedWarning = 0 := by
        constructor <;>
        · rw [List.count_eq_zero]
          intro hmem
          obtain ⟨p, _, heq⟩ := List.mem_map.mp hmem
          first
            | exact mkMinVerWarning_ne_breaking p.1 heq
            | exact mkMinVerWarning_ne_deprecated p.1 heq
      split_ifs <;>
        simp [hver.1, hver.2, List.count_cons, List.count_nil,
          (by decide : breakingWarning ≠ deprecatedWarning),
          (by decide : deprecatedWarning ≠ breakingWarning)]

/-- Witness for C5 at the concrete note containing both trigger substrings. -/
theorem C5_witness :
    check_compatibility
      "One breaking change, another breaking change, and deprecated stuff"
      "9.0.0" "10.0.0" = some [breakingWarning, deprecatedWarning] ∧
    ([breakingWarning, deprecatedWarning] : List String).count breakingWarning =
      (if listContains "breaking change".data
          (lowerL "One breaking change, another breaking change, and deprecated stuff".data)
       then 1 else 0) :=
  ⟨by decide,
   (C5_breaking_and_deprecated_once_per_note
     "One breaking change, another breaking change, and deprecated stuff"
     "9.0.0" "10.0.0" [breakingWarning, deprecatedWarning] (by decide)).1⟩

/-- Counterexample to C6 as stated: the note "access" contains none of the
vocabulary terms the spec lists for either keyword set (the spec's admin set
is claimed to be exactly twelve terms, with "permissions" rather than
"permission" and without "admin"/"access"), yet the classifier places it in
the admin bucket, because the code's `admin_keywords` also contains
"admin", "permission" and "access". -/
theorem C6_counterexample :
    (specClaimedAdminVocab.all
      (fun kw => !(listContains (lowerL kw.data) (lowerL "access".data)))) = true ∧
    (specClaimedUserVocab.all
      (fun kw => !(listContains (lowerL kw.data) (lowerL "access".data)))) = true ∧
    analyze_release_notes [("5.0", "access")] "9.0.0" "10.0.0" =
      some ⟨"**Version 5.0:**\naccess", "No user-relevant changes found.", ""⟩ ∧
    ("**Version 5.0:**\naccess" : String) ≠ "No admin-relevant changes found." :=
  ⟨by decide, by decide, by decide, by decide⟩

/-- C6 as amended: with the code's actual vocabularies (`admin_keywords`,
which additionally contains "admin", "permission", "access", and
`user_keywords`), a note containing no term of either set is relevant to
neither side, and classifying it alone leaves both buckets at their
placeholder strings. -/
theorem C6_keyword_free_note_in_neither_bucket
    (version notesText current target : String) (r : AnalysisResult)
    (hfree : (admin_keywords ++ user_keywords).all
      (fun kw => !(listContains (lowerL kw.data) (lowerL notesText.data))) = true)
    (h : analyze_release_notes [(version, notesText)] current target = some r) :
    is_admin_relevant notesText = false ∧ is_user_relevant notesText = false ∧
    r.admin_notes = "No admin-relevant changes found." ∧
    r.user_notes = "No user-relevant changes found." := by
  rw [List.all_append, Bool.and_eq_true] at hfree
  obtain ⟨ha, hu⟩ := hfree
  have hadm : is_admin_relevant notesText = false := by
    cases hres : is_admin_relevant notesText with
    | false => rfl
    | true =>
      exfalso
      unfold is_admin_relevant at hres
      obtain ⟨kw, hkw, hcon⟩ := List.any_eq_true.mp hres
      have := List.all_eq_true.mp ha kw hkw
      rw [hcon] at this
      cases this
  have husr : is_user_relevant notesText = false := by
    cases hres : is_user_relevant notesText with
    | false => rfl
    | true =>
      exfalso
      unfold is_user_relevant at hres
      obtain ⟨kw, hkw, hcon⟩ := List.any_eq_true.mp hres
      have := List.all_eq_true.mp hu kw hkw
      rw [hcon] at this
      cases this
  unfold analyze_release_notes at h
  simp only [optMap?] at h
  cases hc : check_compatibility notesText current target with
  | none => rw [hc] at h; dsimp only [Option.map] at h; cases h
  | some ws =>
    rw [hc] at h
    dsimp only [Option.map] at h
    injection h with h'
    subst h'
    refine ⟨hadm, husr, ?_, ?_⟩ <;> simp [hadm, husr]

/-- Witness for C6 (amended) at the keyword-free note "hello world". -/
theorem C6_witness :
    ((admin_keywords ++ user_keywords).all
      (fun kw => !(listContains (lowerL kw.data) (lowerL "hello world".data))) = true) ∧
    analyze_release_notes [("1.0", "hello world")] "9.0.0" "9.4.0" =
      some ⟨"No admin-relevant changes found.", "No user-relevant changes found.", ""⟩ ∧
    is_admin_relevant "hello world" = false ∧ is_user_relevant "hello world" = false :=
  ⟨by decide, by decide,
   (C6_keyword_free_note_in_neither_bucket "1.0" "hello world" "9.0.0" "9.4.0"
     ⟨"No admin-relevant changes found.", "No user-relevant changes found.", ""⟩
     (by decide) (by decide)).1,
   (C6_keyword_free_note_in_neither_bucket "1.0" "hello world" "9.0.0" "9.4.0"
     ⟨"No admin-relevant changes found.", "No user-relevant changes found.", ""⟩
     (by decide) (by decide)).2.1⟩

/-- Counterexample to C3 as stated: on the spec's three-line block the single
admin item has importance "minor", not "major" — the hazard-keyword test runs
on the bullet's content only, which contains no hazard keyword ("Security
Improvements" is only the subsection label). -/
theorem C3_counterexample :
    (parseA "Admin Changes:\nSecurity Improvements:\n• Version 9.6.0 addresses a known CVE").admin.map
      ChangeItem.importance = ["minor"] ∧
    (parseA "Admin Changes:\nSecurity Improvements:\n• Version 9.6.0 addresses a known CVE").admin.map
      ChangeItem.importance ≠ ["major"] :=
  ⟨by decide, by decide⟩

/-- C3 as amended: the parser yields exactly one item, in the admin bucket,
with category "Security Improvements", version "9.6.0" and importance
"minor" (no hazard keyword occurs in the bullet content itself). -/
theorem C3_admin_item_fields :
    parseA "Admin Changes:\nSecurity Improvements:\n• Version 9.6.0 addresses a known CVE" =
      ⟨[], [⟨"minor", "Version 9.6.0 addresses a known CVE", "9.6.0", "Security Improvements"⟩],
       []⟩ := by
  decide

theorem stepALine_none_main (res : ParseResults) (sub : Option (List Char)) (l : List Char)
    (h : isMainHeaderA (pyStrip l) = false) :
    ∃ sub', stepALine ⟨res, none, sub⟩ l = ⟨res, none, sub'⟩ := by
  simp only [isMainHeaderA, Bool.or_eq_false_iff, decide_eq_false_iff_not] at h
  obtain ⟨⟨h1, h2⟩, h3⟩ := h
  unfold stepALine
  dsimp only
  split_ifs with he hcolon hbullet hcompat
  · exact ⟨sub, rfl⟩
  · exact ⟨some (pyStrip l).dropLast, rfl⟩
  · exact hcompat.elim
  · exact ⟨sub, rfl⟩
  · exact ⟨sub, rfl⟩

theorem foldA_lines_no_header (lines : List (List Char)) :
    ∀ (res : ParseResults) (sub : Option (List Char)),
      (∀ l ∈ lines, isMainHeaderA (pyStrip l) = false) →
      ∃ sub', lines.foldl stepALine ⟨res, none, sub⟩ = ⟨res, none, sub'⟩ := by
  induction lines with
  | nil => intro res sub _; exact ⟨sub, rfl⟩
  | cons l ls ih =>
    intro res sub h
    rw [List.foldl_cons]
    obtain ⟨sub1, hstep⟩ := stepALine_none_main res sub l (h l (List.mem_cons_self l ls))
    rw [hstep]
    exact ih res sub1 (fun x hx => h x (List.mem_cons_of_mem l hx))

theorem foldA_sections_no_header (secs : List (List Char)) :
    ∀ (res : ParseResults) (sub : Option (List Char)),
      (∀ sec ∈ secs, ∀ l ∈ pySplit ['\n'] (pyStrip sec), isMainHeaderA (pyStrip l) = false) →
      ∃ sub', secs.foldl stepASection ⟨res, none, sub⟩ = ⟨res, none, sub'⟩ := by
  induction secs with
  | nil => intro res sub _; exact ⟨sub, rfl⟩
  | cons sec ss ih =>
    intro res sub h
    rw [List.foldl_cons]
    unfold stepASection
    split_ifs with hemp
    · exact ih res sub (fun s hs => h s (List.mem_cons_of_mem sec hs))
    · obtain ⟨sub1, hstep⟩ :=
        foldA_lines_no_header (pySplit ['\n'] (pyStrip sec)) res sub
          (h sec (List.mem_cons_self sec ss))
      rw [hstep]
      exact ih res sub1 (fun s hs => h s (List.mem_cons_of_mem sec hs))

/-- C7: while `current_main_section` is still unset, processing any run of
lines none of which is a main-section header — bullet lines included — adds
nothing to any bucket (and leaves the main section unset); such lines are
discarded, not routed to a default bucket. -/
theorem C7_bullet_before_header_contributes_nothing
    (res : ParseResults) (sub : Option (List Char)) (lines : List (List Char))
    (h : ∀ l ∈ lines, isMainHeaderA (pyStrip l) = false) :
    (lines.foldl stepALine ⟨res, none, sub⟩).results = res ∧
    (lines.foldl stepALine ⟨res, none, sub⟩).mainSection = none := by
  obtain ⟨sub', he⟩ := foldA_lines_no_header lines res sub h
  rw [he]
  exact ⟨rfl, rfl⟩

/-- Witness for C7: an orphan bullet line is dropped from all buckets. -/
theorem C7_witness :
    (∀ l ∈ ["• orphan bullet".data], isMainHeaderA (pyStrip l) = false) ∧
    (["• orphan bullet".data].foldl stepALine
      ⟨⟨[], [], []⟩, none, none⟩).results = ⟨[], [], []⟩ :=
  ⟨by decide,
   (C7_bullet_before_header_contributes_nothing ⟨[], [], []⟩ none
     ["• orphan bullet".data] (by decide)).1⟩

theorem stepB_no_phrase (st : ParseResults × Option String) (sec : List Char)
    (h : hasSectionPhraseB sec = false) : stepB st sec = st := by
  simp only [hasSectionPhraseB, Bool.or_eq_false_iff] at h
  obtain ⟨⟨⟨⟨h1, h2⟩, h3⟩, h4⟩, h5⟩ := h
  unfold stepB
  dsimp only
  split_ifs with hemp hnf hbf hbc hci ho
  · rfl
  · cases h1.symm.trans hnf
  · cases h2.symm.trans hbf
  · cases h3.symm.trans hbc
  · cases h4.symm.trans hci
  · cases h5.symm.trans ho
  · rfl

theorem foldB_no_phrase (secs : List (List Char)) :
    ∀ st : ParseResults × Option String,
      (∀ sec ∈ secs, hasSectionPhraseB sec = false) → secs.foldl stepB st = st := by
  induction secs with
  | nil => intro st _; rfl
  | cons sec ss ih =>
    intro st h
    rw [List.foldl_cons, stepB_no_phrase st sec (h sec (List.mem_cons_self sec ss))]
    exact ih st (fun s hs => h s (List.mem_cons_of_mem sec hs))

/-- C8: both parsers are total functions of their input text (the embedding
returns a `ParseResults` record with all three buckets for every string), and
when no main-section header (format A) or section phrase (format B) occurs in
the input — in particular for empty, whitespace-only, or arbitrary
non-matching text — all three buckets come back empty. -/
theorem C8_parsers_total_and_empty_on_no_grammar (tA tB : String) :
    (noMainHeaderA tA = true → parseA tA = ⟨[], [], []⟩) ∧
    (noSectionPhraseB tB = true → parseB tB = ⟨[], [], []⟩) := by
  constructor
  · intro hA
    unfold parseA
    unfold noMainHeaderA at hA
    have hhyp : ∀ sec ∈ pySplit "\n\n".data tA.data,
        ∀ l ∈ pySplit ['\n'] (pyStrip sec), isMainHeaderA (pyStrip l) = false := by
      intro sec hsec l hl
      have hs := List.all_eq_true.mp hA sec hsec
      have hll := List.all_eq_true.mp hs l hl
      simpa using hll
    obtain ⟨sub', he⟩ :=
      foldA_sections_no_header (pySplit "\n\n".data tA.data) ⟨[], [], []⟩ none hhyp
    rw [he]
  · intro hB
    unfold parseB
    have hhyp : ∀ sec ∈ pySplit "\n\n".data tB.data, hasSectionPhraseB sec = false := by
      intro sec hsec
      have hs := List.all_eq_true.mp hB sec hsec
      simpa using hs
    rw [foldB_no_phrase (pySplit "\n\n".data tB.data) _ hhyp]

/-- Witness for C8: a non-matching text, the empty string (format A), and a
non-matching text (format B) all yield three empty buckets. -/
theorem C8_witness :
    noMainHeaderA "some random text\n\nwith: no headers\n• stray" = true ∧
    noSectionPhraseB "nothing recognized\n\n* bullet" = true ∧
    parseA "some random text\n\nwith: no headers\n• stray" = ⟨[], [], []⟩ ∧
    parseB "nothing recognized\n\n* bullet" = ⟨[], [], []⟩ ∧
    parseA "" = ⟨[], [], []⟩ ∧
    parseB "   \n\n  " = ⟨[], [], []⟩ :=
  ⟨by decide, by decide,
   (C8_parsers_total_and_empty_on_no_grammar
     "some random text\n\nwith: no headers\n• stray" "nothing recognized\n\n* bullet").1
     (by decide),
   (C8_parsers_total_and_empty_on_no_grammar
     "some random text\n\nwith: no headers\n• stray" "nothing recognized\n\n* bullet").2
     (by decide),
   (C8_parsers_total_and_empty_on_no_grammar "" "   \n\n  ").1 (by decide),
   (C8_parsers_total_and_empty_on_no_grammar "" "   \n\n  ").2 (by decide)⟩

/-- Counterexample to C4 as stated: in wire format B the input
`"New Features:\n* foo\n\n* bar"` leaves the bullet "bar" — which sits in a
later blank-line-separated block with no recognized header — in no bucket,
although a main-section header ("New Features") had been seen; the claimed
format-A-style routing would have placed it in the user bucket. -/
theorem C4_counterexample :
    (parseB "New Features:\n* foo\n\n* bar").user.map ChangeItem.text = ["foo"] ∧
    (parseB "New Features:\n* foo\n\n* bar").admin = [] ∧
    (parseB "New Features:\n* foo\n\n* bar").compatibility = [] :=
  ⟨by decide, by decide, by decide⟩

theorem stepB_results_ignore_current (r : ParseResults) (cs : Option String)
    (sec : List Char) : (stepB (r, cs) sec).1 = (stepB (r, none) sec).1 := by
  unfold stepB
  dsimp only
  split_ifs <;> rfl

/-- C4 as amended: wire format B routes per block, not by the last seen
header — a block containing none of the five recognized phrases contributes
nothing (its bullet lines are dropped even when an earlier block set a
section), and the items a block contributes never depend on the previously
seen `current_section`. -/
theorem C4_blockwise_routing (st : ParseResults × Option String) (sec : List Char) :
    (hasSectionPhraseB sec = false → stepB st sec = st) ∧
    (stepB st sec).1 = (stepB (st.1, none) sec).1 := by
  constructor
  · exact fun h => stepB_no_phrase st sec h
  · obtain ⟨r, cs⟩ := st
    exact stepB_results_ignore_current r cs sec

/-- Witness for C4 (amended): the header-less block "* bar" is dropped even
though the current section is "user". -/
theorem C4_witness :
    stepB ((⟨[], [], []⟩ : ParseResults), some "user") "* bar".data =
      ((⟨[], [], []⟩ : ParseResults), some "user") :=
  (C4_blockwise_routing ((⟨[], [], []⟩ : ParseResults), some "user") "* bar".data).1
    (by decide)

theorem listContains_exists {pat l : List Char} (h : listContains pat l = true) :
    ∃ l1 l2, l = l1 ++ (pat ++ l2) := by
  induction l with
  | nil =>
    simp only [listContains, List.isEmpty_iff] at h
    exact ⟨[], [], by simp [h]⟩
  | cons c t ih =>
    simp only [listContains, Bool.or_eq_true] at h
    rcases h with hpre | hrec
    · obtain ⟨r, hr⟩ := List.isPrefixOf_iff_prefix.mp hpre
      exact ⟨[], r, hr.symm⟩
    · obtain ⟨l1, l2, hl⟩ := ih hrec
      exact ⟨c :: l1, l2, by simp [hl]⟩

/-- C10: a block dispatched to the Breaking-Changes branch (it contains
"Breaking Changes" and neither of the two phrases checked before it) adds
items only to the admin bucket, every added item carrying importance "major"
and category "Breaking Changes" unconditionally — no keyword test is applied
to the item text, unlike the other sections. -/
theorem C10_breaking_changes_always_major (st : ParseResults × Option String)
    (sec : List Char)
    (h1 : listContains "New Features".data sec = false)
    (h2 : listContains "Bugs Fixed".data sec = false)
    (h3 : listContains "Breaking Changes".data sec = true) :
    (stepB st sec).1.user = st.1.user ∧
    (stepB st sec).1.compatibility = st.1.compatibility ∧
    (stepB st sec).1.admin = st.1.admin ++
      (bulletContentsB "Breaking Changes:".data sec).map
        (fun content => ChangeItem.mk "major" (String.mk content) "N/A" "Breaking Changes") ∧
    ∀ it ∈ (stepB st sec).1.admin,
      it ∈ st.1.admin ∨ (it.importance = "major" ∧ it.category = "Breaking Changes") := by
  have hBmem : 'B' ∈ sec := by
    obtain ⟨l1, l2, hl⟩ := listContains_exists h3
    rw [hl]
    refine List.mem_append.mpr (Or.inr (List.mem_append.mpr (Or.inl ?_)))
    decide
  have hne : ¬((pyStrip sec).isEmpty = true) := by
    intro hemp
    have : 'B' ∈ pyStrip sec := mem_pyStripChars hBmem (by decide)
    rw [List.isEmpty_iff.mp hemp] at this
    cases this
  have hn1 : ¬(listContains "New Features".data sec = true) := by rw [h1]; simp
  have hn2 : ¬(listContains "Bugs Fixed".data sec = true) := by rw [h2]; simp
  unfold stepB
  dsimp only
  rw [if_neg hne, if_neg hn1, if_neg hn2, if_pos h3]
  refine ⟨rfl, rfl, rfl, ?_⟩
  intro it hit
  dsimp only at hit
  rcases List.mem_append.mp hit with hl | hr
  · exact Or.inl hl
  · obtain ⟨content, _, rfl⟩ := List.mem_map.mp hr
    exact Or.inr ⟨rfl, rfl⟩

/-- Witness for C10 at a breaking-changes block whose item text contains no
hazard keyword. -/
theorem C10_witness :
    (listContains "New Features".data "Breaking Changes:\n* renamed the config key".data
      = false) ∧
    (listContains "Bugs Fixed".data "Breaking Changes:\n* renamed the config key".data
      = false) ∧
    (listContains "Breaking Changes".data "Breaking Changes:\n* renamed the config key".data
      = true) ∧
    (stepB ((⟨[], [], []⟩ : ParseResults), none)
      "Breaking Changes:\n* renamed the config key".data).1.user =
      (⟨[], [], []⟩ : ParseResults).user :=
  ⟨by decide, by decide, by decide,
   (C10_breaking_changes_always_major ((⟨[], [], []⟩ : ParseResults), none)
     "Breaking Changes:\n* renamed the config key".data
     (by decide) (by decide) (by decide)).1⟩
